import Mathlib

/-!
Shallow embedding of the seeding pipeline in
`nextjs-dashboard/scripts/seed.js`, together with proofs about the claims
of the specification.

The script opens one database connection, runs four table loaders
(`seedUsers`, `seedCustomers`, `seedInvoices`, `seedRevenue`) in sequence
and closes the connection at the end of `main`.  Each loader issues
idempotent DDL (`CREATE EXTENSION IF NOT EXISTS`, `CREATE TABLE IF NOT
EXISTS`) and then one `INSERT ... ON CONFLICT (key) DO NOTHING` per
fixture record.

The embedding keeps the visible state of the database: for each table,
whether it has been created and, if so, its list of rows.  The server
side uuid generator (`uuid_generate_v4()`, the default for the `id`
column of `invoices`, the one table whose INSERT does not supply an id)
is modelled as a counter `nextId`: each generated identifier is the
current counter value and the counter then advances, which models the
fact that version 4 uuids are fresh values that never collide with
previously generated ones.
-/

/-- A fixture record for the `users` table (shape of
`placeholder-data.js` entries as consumed by `seedUsers`). -/
structure UserRec where
  id : String
  name : String
  email : String
  password : String
deriving DecidableEq, Repr

/-- A stored row of the `users` table: the schema of seed.js lines 41-48
(id primary key, email unique, password stored as text). -/
structure UserRow where
  id : String
  name : String
  email : String
  password : String
deriving DecidableEq, Repr

/-- A fixture record and stored row for the `customers` table (seed.js
lines 148-155): the INSERT supplies every column, so record and row
coincide. -/
structure CustomerRec where
  id : String
  name : String
  email : String
  image_url : String
deriving DecidableEq, Repr

/-- A fixture record for the `invoices` table: the INSERT of seed.js
lines 116-120 supplies customer_id, amount, status and date but no id. -/
structure InvoiceRec where
  customer_id : String
  amount : Int
  status : String
  date : String
deriving DecidableEq, Repr

/-- A stored row of the `invoices` table (seed.js lines 94-102): the id
column is filled by the server side default generator, modelled as a
natural number drawn from the `nextId` counter. -/
structure InvoiceRow where
  id : Nat
  customer_id : String
  amount : Int
  status : String
  date : String
deriving DecidableEq, Repr

/-- A fixture record and stored row for the `revenue` table (seed.js
lines 197-202): month is the unique key, record and row coincide. -/
structure RevenueRec where
  month : String
  revenue : Int
deriving DecidableEq, Repr

/-- Database errors surfaced by an INSERT: a violation of a uniqueness
constraint other than the one named in the ON CONFLICT clause.  In the
embedded schema the one such constraint is the UNIQUE on users.email. -/
inductive DbError where
  | uniqueViolation (constraintName : String)
deriving DecidableEq, Repr

/-- The visible database state: for each table `none` means the table
does not exist yet, `some rows` its current contents; `uuidOssp` records
whether the uuid extension is installed; `nextId` is the state of the
server side uuid generator used for invoice ids. -/
structure DB where
  uuidOssp : Bool
  users : Option (List UserRow)
  customers : Option (List CustomerRec)
  invoices : Option (List InvoiceRow)
  revenue : Option (List RevenueRec)
  nextId : Nat
deriving DecidableEq, Repr

/-- The initially empty database: no extension, no tables. -/
def emptyDB : DB := ⟨false, none, none, none, none, 0⟩

/-- The fixture dataset handed to the four loaders (the shape of the
`placeholder-data.js` module, which only the seed script consumes). -/
structure Fixtures where
  users : List UserRec
  customers : List CustomerRec
  invoices : List InvoiceRec
  revenue : List RevenueRec
deriving DecidableEq, Repr

/-- Contents of the `users` table, empty if the table does not exist. -/
def usersRows (db : DB) : List UserRow := db.users.getD []

/-- Contents of the `customers` table, empty if it does not exist. -/
def customerRows (db : DB) : List CustomerRec := db.customers.getD []

/-- Contents of the `invoices` table, empty if it does not exist. -/
def invoiceRows (db : DB) : List InvoiceRow := db.invoices.getD []

/-- Contents of the `revenue` table, empty if it does not exist. -/
def revenueRows (db : DB) : List RevenueRec := db.revenue.getD []

/-- Modelled from the spec: the external bcrypt library used at seed.js
line 60 (`bcrypt.hash(user.password, 10)`).  A bcrypt digest is a tagged
string that records the algorithm and the cost factor in a fixed prefix;
the embedding keeps that shape (`$2b$<cost>$` followed by a digest) and
abstracts the salted one way digest itself, which no claim needs. -/
def bcryptHash (cost : Nat) (plain : String) : String :=
  "$2b$" ++ toString cost ++ "$" ++ plain

/-- Modelled from the spec: `bcrypt.compare` re-derives a digest from the
plaintext and the parameters stored in the hash and checks it against the
stored value (bcrypt cost factors range over a small fixed interval). -/
def bcryptCompare (plain stored : String) : Bool :=
  (List.range 32).any fun c => stored == bcryptHash c plain

/-- Schema initialization of `seedUsers` (seed.js lines 32-48):
CREATE EXTENSION IF NOT EXISTS plus CREATE TABLE IF NOT EXISTS users. -/
def initUsers (db : DB) : DB :=
  let db1 : DB := { db with uuidOssp := true }
  match db1.users with
  | some _ => db1
  | none => { db1 with users := some [] }

/-- Schema initialization of `seedCustomers` (seed.js lines 138-155). -/
def initCustomers (db : DB) : DB :=
  let db1 : DB := { db with uuidOssp := true }
  match db1.customers with
  | some _ => db1
  | none => { db1 with customers := some [] }

/-- Schema initialization of `seedInvoices` (seed.js lines 83-102). -/
def initInvoices (db : DB) : DB :=
  let db1 : DB := { db with uuidOssp := true }
  match db1.invoices with
  | some _ => db1
  | none => { db1 with invoices := some [] }

/-- Schema initialization of `seedRevenue` (seed.js lines 197-202); this
loader issues no CREATE EXTENSION statement. -/
def initRevenue (db : DB) : DB :=
  match db.revenue with
  | some _ => db
  | none => { db with revenue := some [] }

/-- The row `seedUsers` builds for one fixture record: every column from
the record, with the password replaced by its bcrypt hash at cost 10
(seed.js lines 60-63). -/
def hashUserRow (rec : UserRec) : UserRow :=
  ⟨rec.id, rec.name, rec.email, bcryptHash 10 rec.password⟩

/-- One `INSERT INTO users ... ON CONFLICT (id) DO NOTHING` (seed.js
lines 61-65): a conflict on the declared key id is skipped silently; a
violation of the remaining uniqueness constraint (users.email UNIQUE,
seed.js line 45) is a database error; otherwise the row is appended. -/
def insertUserRow (rows : List UserRow) (rec : UserRec) : Except DbError (List UserRow) :=
  if rows.any fun q => q.id == rec.id then .ok rows
  else if rows.any fun q => q.email == rec.email then
    .error (.uniqueViolation "users_email_key")
  else .ok (rows ++ [hashUserRow rec])

/-- The batch of user INSERTs: one insert per fixture record; any insert
error fails the whole batch. -/
def insertUsersAll (recs : List UserRec) (rows : List UserRow) : Except DbError (List UserRow) :=
  match recs with
  | [] => .ok rows
  | rec :: rest =>
    match insertUserRow rows rec with
    | .ok rows1 => insertUsersAll rest rows1
    | .error e => .error e

/-- `seedUsers` (seed.js lines 10-79): schema initialization, then the
batch of hashed inserts; an insert error propagates (the catch block at
lines 75-78 logs and rethrows). -/
def seedUsers (recs : List UserRec) (db : DB) : Except DbError (DB) :=
  let db1 := initUsers db
  match insertUsersAll recs (usersRows db1) with
  | .ok rows => .ok { db1 with users := some rows }
  | .error e => .error e

/-- One `INSERT INTO customers ... ON CONFLICT (id) DO NOTHING` (seed.js
lines 169-173); the schema declares no constraint besides the id key, so
this insert cannot fail. -/
def insertCustomerRow (rows : List CustomerRec) (rec : CustomerRec) : List CustomerRec :=
  if rows.any fun q => q.id == rec.id then rows else rows ++ [rec]

/-- The batch of customer INSERTs. -/
def insertCustomersAll (recs : List CustomerRec) (rows : List CustomerRec) : List CustomerRec :=
  recs.foldl insertCustomerRow rows

/-- The database after `seedCustomers` (seed.js lines 136-187). -/
def seedCustomersD (recs : List CustomerRec) (db : DB) : DB :=
  let db1 := initCustomers db
  { db1 with customers := some (insertCustomersAll recs (customerRows db1)) }

/-- `seedCustomers` as the orchestrator sees it: in the embedded schema
no customer insert can raise an error. -/
def seedCustomers (recs : List CustomerRec) (db : DB) : Except DbError (DB) :=
  .ok (seedCustomersD recs db)

/-- Intermediate state of the invoice batch: current rows, state of the
server side id generator, and how often the ON CONFLICT skip branch has
been taken. -/
structure InvSt where
  rows : List InvoiceRow
  nextId : Nat
  skipped : Nat
deriving DecidableEq, Repr

/-- One `INSERT INTO invoices (customer_id, amount, status, date) ...
ON CONFLICT (id) DO NOTHING` (seed.js lines 116-120): the id column is
not supplied, so the server draws a fresh identifier from the default
generator; only then is the conflict check on id performed. -/
def insertInvoiceRow (st : InvSt) (rec : InvoiceRec) : InvSt :=
  if st.rows.any fun q => q.id == st.nextId then
    ⟨st.rows, st.nextId + 1, st.skipped + 1⟩
  else
    ⟨st.rows ++ [⟨st.nextId, rec.customer_id, rec.amount, rec.status, rec.date⟩],
      st.nextId + 1, st.skipped⟩

/-- The batch of invoice INSERTs. -/
def insertInvoicesAll (recs : List InvoiceRec) (st : InvSt) : InvSt :=
  recs.foldl insertInvoiceRow st

/-- The database after `seedInvoices` (seed.js lines 81-134). -/
def seedInvoicesD (recs : List InvoiceRec) (db : DB) : DB :=
  let db1 := initInvoices db
  let st := insertInvoicesAll recs ⟨invoiceRows db1, db1.nextId, 0⟩
  { db1 with invoices := some st.rows, nextId := st.nextId }

/-- `seedInvoices` as the orchestrator sees it: the invoices schema has
no constraint an insert could violate, so no error arises. -/
def seedInvoices (recs : List InvoiceRec) (db : DB) : Except DbError (DB) :=
  .ok (seedInvoicesD recs db)

/-- One `INSERT INTO revenue ... ON CONFLICT (month) DO NOTHING`
(seed.js lines 216-220): a conflict on the unique month key is skipped;
no other constraint exists. -/
def insertRevenueRow (rows : List RevenueRec) (rec : RevenueRec) : List RevenueRec :=
  if rows.any fun q => q.month == rec.month then rows else rows ++ [rec]

/-- The batch of revenue INSERTs. -/
def insertRevenuesAll (recs : List RevenueRec) (rows : List RevenueRec) : List RevenueRec :=
  recs.foldl insertRevenueRow rows

/-- The database after `seedRevenue` (seed.js lines 189-234). -/
def seedRevenueD (recs : List RevenueRec) (db : DB) : DB :=
  let db1 := initRevenue db
  { db1 with revenue := some (insertRevenuesAll recs (revenueRows db1)) }

/-- `seedRevenue` as the orchestrator sees it. -/
def seedRevenue (recs : List RevenueRec) (db : DB) : Except DbError (DB) :=
  .ok (seedRevenueD recs db)

/-- The four seeding phases, in the order `main` runs them. -/
inductive Phase where
  | users
  | customers
  | invoices
  | revenue
deriving DecidableEq, Repr

/-- An event of the orchestration trace: a phase starts, a phase ends. -/
inductive Ev where
  | start (p : Phase)
  | finish (p : Phase)
deriving DecidableEq, Repr

/-- The trace of a run in which all four phases complete. -/
def fullTrace : List Ev :=
  [.start .users, .finish .users, .start .customers, .finish .customers,
   .start .invoices, .finish .invoices, .start .revenue, .finish .revenue]

deriving instance DecidableEq for Except

/-- Outcome of one run of `main`: the trace of phase events, how many
times `client.end()` ran, and the final result. -/
structure RunOut where
  trace : List Ev
  released : Nat
  result : Except DbError DB
deriving DecidableEq, Repr

/-- The orchestrator `main` (seed.js lines 236-258) together with the top
level `main().catch` handler (lines 260-265): connect, then the four
awaited phases in a fixed order; a thrown error skips everything after
it, including the `client.end()` call at line 257, and is surfaced by the
catch handler; only a fully successful run reaches `client.end()`. -/
def mainRun (f : Fixtures) (db : DB) : RunOut :=
  match seedUsers f.users db with
  | .error e => ⟨[.start .users], 0, .error e⟩
  | .ok d1 =>
    match seedCustomers f.customers d1 with
    | .error e => ⟨[.start .users, .finish .users, .start .customers], 0, .error e⟩
    | .ok d2 =>
      match seedInvoices f.invoices d2 with
      | .error e =>
        ⟨[.start .users, .finish .users, .start .customers, .finish .customers,
          .start .invoices], 0, .error e⟩
      | .ok d3 =>
        match seedRevenue f.revenue d3 with
        | .error e =>
          ⟨[.start .users, .finish .users, .start .customers, .finish .customers,
            .start .invoices, .finish .invoices, .start .revenue], 0, .error e⟩
        | .ok d4 => ⟨fullTrace, 1, .ok d4⟩

/-- Whether an Except value is a success. -/
def exOk {ε α : Type} : Except ε α → Bool
  | .ok _ => true
  | .error _ => false

/-- Two consecutive runs of the seed script against the same database. -/
def runTwice (f : Fixtures) (db : DB) : Except DbError DB :=
  match (mainRun f db).result with
  | .ok d => (mainRun f d).result
  | .error e => .error e

/-- A dispatched insert operation as the event loop sees it: the logical
time at which it settles and its outcome.  Modelled from the spec: the
loaders dispatch their inserts through `Promise.all` (seed.js lines 58,
107, 160, 207), whose semantics is fixed by the platform, not by this
repository. -/
structure PTask (ε α : Type) where
  time : Nat
  result : Except ε α
deriving DecidableEq, Repr

/-- Whether a task settles successfully. -/
def taskOk {ε α : Type} (t : PTask ε α) : Bool := exOk t.result

/-- One step of the scan for the first rejection: keep the pending
earliest rejected task while walking the dispatched batch. -/
def mtfStep {ε α : Type} (acc : Option (PTask ε α)) (t : PTask ε α) : Option (PTask ε α) :=
  if taskOk t then acc
  else
    match acc with
    | none => some t
    | some u => if t.time < u.time then some t else acc

/-- The rejected task that settles first (minimal settle time, earliest
dispatch position on a tie), if any task rejects. -/
def minTimeFail {ε α : Type} (ts : List (PTask ε α)) : Option (PTask ε α) :=
  ts.foldl mtfStep none

/-- `Promise.all` over a batch of dispatched tasks: if every task
fulfills, the combined promise fulfills with all values once the last
task has settled; as soon as any task rejects, the combined promise
rejects with that first rejection, without waiting for the remaining
tasks. -/
def promiseAll {ε α : Type} (ts : List (PTask ε α)) : PTask ε (List α) :=
  match minTimeFail ts with
  | some u =>
    { time := u.time,
      result :=
        match u.result with
        | .error e => .error e
        | .ok _ => .ok [] }
  | none =>
    { time := (ts.map fun t => t.time).foldl max 0,
      result := .ok (ts.filterMap fun t => t.result.toOption) }

/-- An empty fixture dataset. -/
def fEmpty : Fixtures := ⟨[], [], [], []⟩

/-- Two user fixtures with distinct ids but the same email address: the
second INSERT violates the users.email UNIQUE constraint, which the
ON CONFLICT (id) clause does not cover, so its seeding phase fails. -/
def fBadUsers : List UserRec :=
  [⟨"u1", "Ann", "ann@x.com", "plain"⟩, ⟨"u2", "Bob", "ann@x.com", "pw"⟩]

/-- A fixture dataset whose users phase fails. -/
def fBad : Fixtures := ⟨fBadUsers, [], [], []⟩

/-- A fixture dataset with a single invoice record. -/
def fOneInvoice : Fixtures := ⟨[], [], [⟨"c1", 100, "paid", "2024-01-01"⟩], []⟩

/-- A fixture dataset with the single revenue record of the spec
scenario. -/
def fOneRevenue : Fixtures := ⟨[], [], [], [⟨"Jan", 100⟩]⟩

/-- A fixture dataset with one record in every table. -/
def fOneEach : Fixtures :=
  ⟨[⟨"u1", "Ann", "ann@x.com", "pw"⟩], [⟨"c1", "Cust", "c@x.com", "img"⟩],
   [⟨"c1", 100, "paid", "2024-01-01"⟩], [⟨"Jan", 100⟩]⟩

/-- The database reached by seeding `fOneEach` into the empty database. -/
def dOneEach : DB :=
  ⟨true, some [⟨"u1", "Ann", "ann@x.com", "$2b$10$pw"⟩],
   some [⟨"c1", "Cust", "c@x.com", "img"⟩],
   some [⟨0, "c1", 100, "paid", "2024-01-01"⟩],
   some [⟨"Jan", 100⟩], 1⟩

/-- The database reached by seeding `fOneEach` twice into the empty
database: only the invoices table has grown. -/
def dOneEachTwice : DB :=
  ⟨true, some [⟨"u1", "Ann", "ann@x.com", "$2b$10$pw"⟩],
   some [⟨"c1", "Cust", "c@x.com", "img"⟩],
   some [⟨0, "c1", 100, "paid", "2024-01-01"⟩, ⟨1, "c1", 100, "paid", "2024-01-01"⟩],
   some [⟨"Jan", 100⟩], 2⟩

/-- A users table holding one row. -/
def rowsSample : List UserRow := [⟨"u1", "Ann", "ann@x.com", "h1"⟩]

/-- A user fixture whose id collides with the stored row of
`rowsSample`. -/
def recSameId : UserRec := ⟨"u1", "Ann", "ann@x.com", "plain"⟩

/-- A user fixture with a fresh id but the email of the stored row of
`rowsSample`. -/
def recEmailClash : UserRec := ⟨"u2", "Bob", "ann@x.com", "pw"⟩

/-- A revenue table holding one row. -/
def rrowsSample : List RevenueRec := [⟨"Jan", 100⟩]

/-- A revenue fixture whose month collides with `rrowsSample`. -/
def rvClash : RevenueRec := ⟨"Jan", 250⟩

/-- A single user fixture list for the password scenario of the spec. -/
def recsPw : List UserRec := [⟨"u1", "Ann", "ann@x.com", "plain"⟩]

/-- The database reached by seeding `recsPw` users into the empty
database. -/
def dPw : DB :=
  ⟨true, some [⟨"u1", "Ann", "ann@x.com", "$2b$10$plain"⟩], none, none, none, 0⟩

/-- The stored row of `dPw`. -/
def rowPw : UserRow := ⟨"u1", "Ann", "ann@x.com", "$2b$10$plain"⟩

/-- A database with one customer, an empty invoices table and a spent
generator state. -/
def dbInvSample : DB :=
  ⟨true, none, some [⟨"c1", "Cust", "c@x.com", "img"⟩],
   some [⟨0, "c1", 5, "paid", "2024-01-01"⟩], none, 1⟩

/-- An invoice fixture whose customer_id matches no stored customer. -/
def recGhost : InvoiceRec := ⟨"ghost", 7, "pending", "2024-02-02"⟩

/-- One invoice fixture list for the append witness. -/
def recsInv : List InvoiceRec := [⟨"c9", 7, "pending", "2024-02-02"⟩]

/-- A database with every table present. -/
def dbAllTables : DB :=
  ⟨true, some rowsSample, some [⟨"c1", "Cust", "c@x.com", "img"⟩],
   some [⟨0, "c1", 5, "paid", "2024-01-01"⟩], some rrowsSample, 1⟩

/-- Two dispatched tasks that both fulfill. -/
def tasksOk2 : List (PTask String Nat) := [⟨3, .ok 0⟩, ⟨5, .ok 1⟩]

/-- Two dispatched tasks: the slow one fulfills at time 5, the fast one
rejects at time 1. -/
def tasksMixed : List (PTask String Nat) := [⟨5, .ok 0⟩, ⟨1, .error "boom"⟩]

theorem initUsers_users (db : DB) : (initUsers db).users = some (usersRows db) := by
  cases h : db.users <;> simp [initUsers, usersRows, h]

theorem usersRows_initUsers (db : DB) : usersRows (initUsers db) = usersRows db := by
  simp [usersRows, initUsers_users db, Option.getD]

theorem initUsers_fields (db : DB) :
    (initUsers db).customers = db.customers ∧ (initUsers db).invoices = db.invoices ∧
    (initUsers db).revenue = db.revenue ∧ (initUsers db).nextId = db.nextId := by
  cases h : db.users <;> simp [initUsers, h]

theorem initCustomers_customers (db : DB) :
    (initCustomers db).customers = some (customerRows db) := by
  cases h : db.customers <;> simp [initCustomers, customerRows, h]

theorem customerRows_initCustomers (db : DB) :
    customerRows (initCustomers db) = customerRows db := by
  simp [customerRows, initCustomers_customers db, Option.getD]

theorem initCustomers_fields (db : DB) :
    (initCustomers db).users = db.users ∧ (initCustomers db).invoices = db.invoices ∧
    (initCustomers db).revenue = db.revenue ∧ (initCustomers db).nextId = db.nextId := by
  cases h : db.customers <;> simp [initCustomers, h]

theorem initInvoices_invoices (db : DB) :
    (initInvoices db).invoices = some (invoiceRows db) := by
  cases h : db.invoices <;> simp [initInvoices, invoiceRows, h]

theorem invoiceRows_initInvoices (db : DB) :
    invoiceRows (initInvoices db) = invoiceRows db := by
  simp [invoiceRows, initInvoices_invoices db, Option.getD]

theorem initInvoices_fields (db : DB) :
    (initInvoices db).users = db.users ∧ (initInvoices db).customers = db.customers ∧
    (initInvoices db).revenue = db.revenue ∧ (initInvoices db).nextId = db.nextId := by
  cases h : db.invoices <;> simp [initInvoices, h]

theorem initRevenue_revenue (db : DB) :
    (initRevenue db).revenue = some (revenueRows db) := by
  cases h : db.revenue <;> simp [initRevenue, revenueRows, h]

theorem revenueRows_initRevenue (db : DB) :
    revenueRows (initRevenue db) = revenueRows db := by
  simp [revenueRows, initRevenue_revenue db, Option.getD]

theorem initRevenue_fields (db : DB) :
    (initRevenue db).users = db.users ∧ (initRevenue db).customers = db.customers ∧
    (initRevenue db).invoices = db.invoices ∧ (initRevenue db).nextId = db.nextId ∧
    (initRevenue db).uuidOssp = db.uuidOssp := by
  cases h : db.revenue <;> simp [initRevenue, h]

theorem bcryptHash_ne_plain (cost : Nat) (plain : String) : bcryptHash cost plain ≠ plain := by
  intro h
  have hl : (bcryptHash cost plain).length = plain.length := by rw [h]
  simp [bcryptHash, String.length_append] at hl
  exact absurd hl.2 (by decide)

theorem bcryptCompare_hash (plain : String) :
    bcryptCompare plain (bcryptHash 10 plain) = true := by
  apply List.any_eq_true.mpr
  exact ⟨10, by simp [List.mem_range], by simp⟩

theorem insertUserRow_ok_cases (rows : List UserRow) (rec : UserRec) (rows1 : List UserRow)
    (h : insertUserRow rows rec = .ok rows1) :
    (rows1 = rows ∧ (rows.any fun q => q.id == rec.id) = true) ∨
    (rows1 = rows ++ [hashUserRow rec] ∧ (rows.any fun q => q.id == rec.id) = false) := by
  unfold insertUserRow at h
  split at h
  · rename_i hc
    left
    exact ⟨by injection h with h; exact h.symm, hc⟩
  · split at h
    · exact absurd h (by simp)
    · rename_i hc _
      right
      refine ⟨by injection h with h; exact h.symm, ?_⟩
      simpa using hc

theorem insertUsersAll_sub (recs : List UserRec) :
    ∀ rows rows1, insertUsersAll recs rows = .ok rows1 → ∀ q ∈ rows, q ∈ rows1 := by
  induction recs with
  | nil =>
    intro rows rows1 h q hq
    unfold insertUsersAll at h
    injection h with h
    exact h ▸ hq
  | cons rec rest ih =>
    intro rows rows1 h q hq
    unfold insertUsersAll at h
    cases hi : insertUserRow rows rec with
    | error e => rw [hi] at h; exact absurd h (by simp)
    | ok rowsm =>
      rw [hi] at h
      rcases insertUserRow_ok_cases rows rec rowsm hi with ⟨rfl, _⟩ | ⟨rfl, _⟩
      · exact ih _ rows1 h q hq
      · exact ih _ rows1 h q (List.mem_append_left _ hq)

theorem insertUsersAll_covers (recs : List UserRec) :
    ∀ rows rows1, insertUsersAll recs rows = .ok rows1 →
      ∀ rec ∈ recs, ∃ q ∈ rows1, q.id = rec.id := by
  induction recs with
  | nil => intro rows rows1 _ rec hrec; exact absurd hrec (by simp)
  | cons rc rest ih =>
    intro rows rows1 h rec hrec
    unfold insertUsersAll at h
    cases hi : insertUserRow rows rc with
    | error e => rw [hi] at h; exact absurd h (by simp)
    | ok rowsm =>
      rw [hi] at h
      rcases List.mem_cons.mp hrec with rfl | hmem
      · rcases insertUserRow_ok_cases rows rec rowsm hi with ⟨rfl, hany⟩ | ⟨rfl, _⟩
        · obtain ⟨q, hq, hbq⟩ := List.any_eq_true.mp hany
          exact ⟨q, insertUsersAll_sub rest _ _ h q hq, by simpa using hbq⟩
        · refine ⟨hashUserRow rec, ?_, by simp [hashUserRow]⟩
          exact insertUsersAll_sub rest _ _ h _ (List.mem_append_right _ (by simp))
      · exact ih rowsm rows1 h rec hmem

theorem insertUsersAll_noop (recs : List UserRec) :
    ∀ rows, (∀ rec ∈ recs, ∃ q ∈ rows, q.id = rec.id) →
      insertUsersAll recs rows = .ok rows := by
  induction recs with
  | nil => intro rows _; rfl
  | cons rec rest ih =>
    intro rows h
    obtain ⟨q, hq, hid⟩ := h rec (by simp)
    have hany : (rows.any fun q => q.id == rec.id) = true :=
      List.any_eq_true.mpr ⟨q, hq, by simpa using hid⟩
    unfold insertUsersAll
    rw [show insertUserRow rows rec = .ok rows by unfold insertUserRow; rw [hany]; rfl]
    exact ih rows fun rc hrc => h rc (by simp [hrc])

theorem insertUsersAll_new (recs : List UserRec) :
    ∀ rows rows1, insertUsersAll recs rows = .ok rows1 →
      ∀ q ∈ rows1, q ∈ rows ∨ ∃ rec ∈ recs, q = hashUserRow rec := by
  induction recs with
  | nil =>
    intro rows rows1 h q hq
    unfold insertUsersAll at h
    injection h with h
    exact Or.inl (h ▸ hq)
  | cons rec rest ih =>
    intro rows rows1 h q hq
    unfold insertUsersAll at h
    cases hi : insertUserRow rows rec with
    | error e => rw [hi] at h; exact absurd h (by simp)
    | ok rowsm =>
      rw [hi] at h
      rcases ih rowsm rows1 h q hq with hmem | ⟨rc, hrc, rfl⟩
      · rcases insertUserRow_ok_cases rows rec rowsm hi with ⟨rfl, _⟩ | ⟨rfl, _⟩
        · exact Or.inl hmem
        · rcases List.mem_append.mp hmem with hold | hnew
          · exact Or.inl hold
          · exact Or.inr ⟨rec, by simp, by simpa using hnew⟩
      · exact Or.inr ⟨rc, by simp [hrc], rfl⟩

theorem insertCustomersAll_sub (recs : List CustomerRec) :
    ∀ rows q, q ∈ rows → q ∈ insertCustomersAll recs rows := by
  induction recs with
  | nil => intro rows q hq; exact hq
  | cons rec rest ih =>
    intro rows q hq
    rw [show insertCustomersAll (rec :: rest) rows =
          insertCustomersAll rest (insertCustomerRow rows rec) from rfl]
    apply ih
    unfold insertCustomerRow
    split
    · exact hq
    · exact List.mem_append_left _ hq

theorem insertCustomersAll_covers (recs : List CustomerRec) :
    ∀ rows rec, rec ∈ recs → ∃ q ∈ insertCustomersAll recs rows, q.id = rec.id := by
  induction recs with
  | nil => intro rows rec hrec; exact absurd hrec (by simp)
  | cons rc rest ih =>
    intro rows rec hrec
    rw [show insertCustomersAll (rc :: rest) rows =
          insertCustomersAll rest (insertCustomerRow rows rc) from rfl]
    rcases List.mem_cons.mp hrec with rfl | hmem
    · unfold insertCustomerRow
      split
      · rename_i hany
        obtain ⟨q, hq, hbq⟩ := List.any_eq_true.mp hany
        exact ⟨q, insertCustomersAll_sub rest _ q hq, by simpa using hbq⟩
      · exact ⟨rec, insertCustomersAll_sub rest _ rec (List.mem_append_right _ (by simp)), rfl⟩
    · exact ih _ rec hmem

theorem insertCustomersAll_noop (recs : List CustomerRec) :
    ∀ rows, (∀ rec ∈ recs, ∃ q ∈ rows, q.id = rec.id) →
      insertCustomersAll recs rows = rows := by
  induction recs with
  | nil => intro rows _; rfl
  | cons rec rest ih =>
    intro rows h
    obtain ⟨q, hq, hid⟩ := h rec (by simp)
    have hstep : insertCustomerRow rows rec = rows := by
      unfold insertCustomerRow
      rw [List.any_eq_true.mpr ⟨q, hq, by simpa using hid⟩]
      rfl
    rw [show insertCustomersAll (rec :: rest) rows =
          insertCustomersAll rest (insertCustomerRow rows rec) from rfl, hstep]
    exact ih rows fun rc hrc => h rc (by simp [hrc])

theorem insertRevenuesAll_sub (recs : List RevenueRec) :
    ∀ rows q, q ∈ rows → q ∈ insertRevenuesAll recs rows := by
  induction recs with
  | nil => intro rows q hq; exact hq
  | cons rec rest ih =>
    intro rows q hq
    rw [show insertRevenuesAll (rec :: rest) rows =
          insertRevenuesAll rest (insertRevenueRow rows rec) from rfl]
    apply ih
    unfold insertRevenueRow
    split
    · exact hq
    · exact List.mem_append_left _ hq

theorem insertRevenuesAll_covers (recs : List RevenueRec) :
    ∀ rows rec, rec ∈ recs → ∃ q ∈ insertRevenuesAll recs rows, q.month = rec.month := by
  induction recs with
  | nil => intro rows rec hrec; exact absurd hrec (by simp)
  | cons rc rest ih =>
    intro rows rec hrec
    rw [show insertRevenuesAll (rc :: rest) rows =
          insertRevenuesAll rest (insertRevenueRow rows rc) from rfl]
    rcases List.mem_cons.mp hrec with rfl | hmem
    · unfold insertRevenueRow
      split
      · rename_i hany
        obtain ⟨q, hq, hbq⟩ := List.any_eq_true.mp hany
        exact ⟨q, insertRevenuesAll_sub rest _ q hq, by simpa using hbq⟩
      · exact ⟨rec, insertRevenuesAll_sub rest _ rec (List.mem_append_right _ (by simp)), rfl⟩
    · exact ih _ rec hmem

theorem insertRevenuesAll_noop (recs : List RevenueRec) :
    ∀ rows, (∀ rec ∈ recs, ∃ q ∈ rows, q.month = rec.month) →
      insertRevenuesAll recs rows = rows := by
  induction recs with
  | nil => intro rows _; rfl
  | cons rec rest ih =>
    intro rows h
    obtain ⟨q, hq, hid⟩ := h rec (by simp)
    have hstep : insertRevenueRow rows rec = rows := by
      unfold insertRevenueRow
      rw [List.any_eq_true.mpr ⟨q, hq, by simpa using hid⟩]
      rfl
    rw [show insertRevenuesAll (rec :: rest) rows =
          insertRevenuesAll rest (insertRevenueRow rows rec) from rfl, hstep]
    exact ih rows fun rc hrc => h rc (by simp [hrc])

theorem insertInvoicesAll_fresh (recs : List InvoiceRec) :
    ∀ st : InvSt, (∀ r ∈ st.rows, r.id < st.nextId) →
      (insertInvoicesAll recs st).skipped = st.skipped ∧
      (insertInvoicesAll recs st).rows.length = st.rows.length + recs.length ∧
      (insertInvoicesAll recs st).nextId = st.nextId + recs.length ∧
      ∀ r ∈ (insertInvoicesAll recs st).rows, r.id < (insertInvoicesAll recs st).nextId := by
  induction recs with
  | nil =>
    intro st h
    exact ⟨rfl, by simp [insertInvoicesAll], by simp [insertInvoicesAll], h⟩
  | cons rec rest ih =>
    intro st h
    have hcond : (st.rows.any fun q => q.id == st.nextId) = false := by
      cases hany : st.rows.any fun q => q.id == st.nextId with
      | false => rfl
      | true =>
        obtain ⟨q, hq, hbq⟩ := List.any_eq_true.mp hany
        have : q.id = st.nextId := by simpa using hbq
        exact absurd this (Nat.ne_of_lt (h q hq))
    have hstep : insertInvoiceRow st rec =
        ⟨st.rows ++ [⟨st.nextId, rec.customer_id, rec.amount, rec.status, rec.date⟩],
          st.nextId + 1, st.skipped⟩ := by
      unfold insertInvoiceRow
      rw [hcond]
      rfl
    have hfresh : ∀ r ∈ (insertInvoiceRow st rec).rows, r.id < (insertInvoiceRow st rec).nextId := by
      rw [hstep]
      intro r hr
      rcases List.mem_append.mp hr with hold | hnew
      · exact Nat.lt_succ_of_lt (h r hold)
      · have : r = ⟨st.nextId, rec.customer_id, rec.amount, rec.status, rec.date⟩ := by
          simpa using hnew
        rw [this]
        exact Nat.lt_succ_self _
    have hrec := ih (insertInvoiceRow st rec) hfresh
    have hun : insertInvoicesAll (rec :: rest) st =
        insertInvoicesAll rest (insertInvoiceRow st rec) := rfl
    rw [hun]
    refine ⟨?_, ?_, ?_, hrec.2.2.2⟩
    · rw [hrec.1, hstep]
    · rw [hrec.2.1, hstep]
      simp
      omega
    · rw [hrec.2.2.1, hstep]
      simp
      omega

theorem seedUsers_ok_shape (recs : List UserRec) (db d : DB) (h : seedUsers recs db = .ok d) :
    ∃ rows, insertUsersAll recs (usersRows db) = .ok rows ∧
      d = { initUsers db with users := some rows } := by
  simp only [seedUsers] at h
  cases hi : insertUsersAll recs (usersRows (initUsers db)) with
  | error e => rw [hi] at h; exact absurd h (by simp)
  | ok rows =>
    rw [hi] at h
    refine ⟨rows, ?_, ?_⟩
    · rw [usersRows_initUsers] at hi; exact hi
    · injection h with h; exact h.symm

theorem seedUsers_of_error (recs : List UserRec) (db : DB) (e : DbError)
    (h : insertUsersAll recs (usersRows db) = .error e) :
    seedUsers recs db = .error e := by
  simp only [seedUsers]
  rw [usersRows_initUsers, h]

theorem seedUsers_stable (recs : List UserRec) (db : DB) (rows : List UserRow)
    (hdb : db.users = some rows)
    (hcov : ∀ rec ∈ recs, ∃ q ∈ rows, q.id = rec.id) :
    seedUsers recs db = .ok { initUsers db with users := some rows } := by
  have hrows : usersRows db = rows := by simp [usersRows, hdb]
  simp only [seedUsers]
  rw [usersRows_initUsers, hrows, insertUsersAll_noop recs rows hcov]

theorem seedCustomersD_fields (recs : List CustomerRec) (db : DB) :
    (seedCustomersD recs db).users = db.users ∧
    (seedCustomersD recs db).invoices = db.invoices ∧
    (seedCustomersD recs db).revenue = db.revenue ∧
    (seedCustomersD recs db).nextId = db.nextId ∧
    (seedCustomersD recs db).customers = some (insertCustomersAll recs (customerRows db)) := by
  obtain ⟨h1, h2, h3, h4⟩ := initCustomers_fields db
  unfold seedCustomersD
  simp [h1, h2, h3, h4, customerRows_initCustomers db]

theorem seedInvoicesD_fields (recs : List InvoiceRec) (db : DB) :
    (seedInvoicesD recs db).users = db.users ∧
    (seedInvoicesD recs db).customers = db.customers ∧
    (seedInvoicesD recs db).revenue = db.revenue ∧
    (seedInvoicesD recs db).invoices =
      some (insertInvoicesAll recs ⟨invoiceRows db, db.nextId, 0⟩).rows ∧
    (seedInvoicesD recs db).nextId =
      (insertInvoicesAll recs ⟨invoiceRows db, db.nextId, 0⟩).nextId := by
  obtain ⟨h1, h2, h3, h4⟩ := initInvoices_fields db
  unfold seedInvoicesD
  simp [h1, h2, h3, h4, invoiceRows_initInvoices db]

theorem seedRevenueD_fields (recs : List RevenueRec) (db : DB) :
    (seedRevenueD recs db).users = db.users ∧
    (seedRevenueD recs db).customers = db.customers ∧
    (seedRevenueD recs db).invoices = db.invoices ∧
    (seedRevenueD recs db).nextId = db.nextId ∧
    (seedRevenueD recs db).revenue = some (insertRevenuesAll recs (revenueRows db)) := by
  obtain ⟨h1, h2, h3, h4, h5⟩ := initRevenue_fields db
  unfold seedRevenueD
  simp [h1, h2, h3, h4, revenueRows_initRevenue db]

theorem mainRun_result (f : Fixtures) (db : DB) :
    (mainRun f db).result =
      match seedUsers f.users db with
      | .ok u1 =>
        .ok (seedRevenueD f.revenue (seedInvoicesD f.invoices (seedCustomersD f.customers u1)))
      | .error e => .error e := by
  cases hu : seedUsers f.users db <;>
    simp [mainRun, hu, seedCustomers, seedInvoices, seedRevenue]

theorem le_foldl_max_init (l : List Nat) : ∀ a : Nat, a ≤ l.foldl max a := by
  induction l with
  | nil => intro a; exact Nat.le_refl a
  | cons x xs ih =>
    intro a
    exact Nat.le_trans (Nat.le_max_left a x) (ih (max a x))

theorem le_foldl_max_mem (l : List Nat) : ∀ a x, x ∈ l → x ≤ l.foldl max a := by
  induction l with
  | nil => intro a x hx; exact absurd hx (by simp)
  | cons y ys ih =>
    intro a x hx
    rcases List.mem_cons.mp hx with rfl | hmem
    · exact Nat.le_trans (Nat.le_max_right a x) (le_foldl_max_init ys (max a x))
    · exact ih (max a y) x hmem

theorem mtf_fold_inv {ε α : Type} (ts : List (PTask ε α)) :
    ∀ v : PTask ε α, taskOk v = false →
      ∃ u, ts.foldl mtfStep (some v) = some u ∧ u.time ≤ v.time ∧ taskOk u = false ∧
        ∀ t ∈ ts, taskOk t = false → u.time ≤ t.time := by
  induction ts with
  | nil => intro v hv; exact ⟨v, rfl, Nat.le_refl _, hv, by simp⟩
  | cons t rest ih =>
    intro v hv
    cases ht : taskOk t with
    | true =>
      have hstep : mtfStep (some v) t = some v := by unfold mtfStep; rw [ht]; rfl
      obtain ⟨u, hu, hle, hok, hall⟩ := ih v hv
      rw [List.foldl_cons, hstep]
      refine ⟨u, hu, hle, hok, ?_⟩
      intro s hs hsf
      rcases List.mem_cons.mp hs with rfl | hmem
      · rw [ht] at hsf; exact absurd hsf (by simp)
      · exact hall s hmem hsf
    | false =>
      have hstep : mtfStep (some v) t = if t.time < v.time then some t else some v := by
        simp [mtfStep, ht]
      rw [List.foldl_cons, hstep]
      by_cases hlt : t.time < v.time
      · rw [if_pos hlt]
        obtain ⟨u, hu, hle, hok, hall⟩ := ih t ht
        refine ⟨u, hu, Nat.le_trans hle (Nat.le_of_lt hlt), hok, ?_⟩
        intro s hs hsf
        rcases List.mem_cons.mp hs with rfl | hmem
        · exact hle
        · exact hall s hmem hsf
      · rw [if_neg hlt]
        obtain ⟨u, hu, hle, hok, hall⟩ := ih v hv
        refine ⟨u, hu, hle, hok, ?_⟩
        intro s hs hsf
        rcases List.mem_cons.mp hs with rfl | hmem
        · exact Nat.le_trans hle (Nat.le_of_not_lt hlt)
        · exact hall s hmem hsf

theorem mtf_all_ok {ε α : Type} (ts : List (PTask ε α))
    (h : ∀ t ∈ ts, taskOk t = true) : minTimeFail ts = none := by
  unfold minTimeFail
  induction ts with
  | nil => rfl
  | cons t rest ih =>
    have hstep : mtfStep (none : Option (PTask ε α)) t = none := by
      unfold mtfStep; rw [h t (by simp)]; rfl
    rw [List.foldl_cons, hstep]
    exact ih fun s hs => h s (by simp [hs])

theorem mtf_some {ε α : Type} (ts : List (PTask ε α)) :
    ∀ u, minTimeFail ts = some u →
      taskOk u = false ∧ ∀ t ∈ ts, taskOk t = false → u.time ≤ t.time := by
  unfold minTimeFail
  induction ts with
  | nil => intro u hu; exact absurd hu (by simp)
  | cons t rest ih =>
    intro u hu
    cases ht : taskOk t with
    | true =>
      have hstep : mtfStep (none : Option (PTask ε α)) t = none := by
        unfold mtfStep; rw [ht]; rfl
      rw [List.foldl_cons, hstep] at hu
      obtain ⟨hok, hall⟩ := ih u hu
      refine ⟨hok, ?_⟩
      intro s hs hsf
      rcases List.mem_cons.mp hs with rfl | hmem
      · rw [ht] at hsf; exact absurd hsf (by simp)
      · exact hall s hmem hsf
    | false =>
      have hstep : mtfStep (none : Option (PTask ε α)) t = some t := by
        unfold mtfStep; rw [ht]; rfl
      rw [List.foldl_cons, hstep] at hu
      obtain ⟨w, hw, hle, hok, hall⟩ := mtf_fold_inv rest t ht
      rw [hw] at hu
      injection hu with hu
      subst hu
      refine ⟨hok, ?_⟩
      intro s hs hsf
      rcases List.mem_cons.mp hs with rfl | hmem
      · exact hle
      · exact hall s hmem hsf

theorem any_id_eq_false (rows : List InvoiceRow) (n : Nat) (h : ∀ r ∈ rows, r.id < n) :
    (rows.any fun q => q.id == n) = false := by
  cases hany : rows.any fun q => q.id == n with
  | false => rfl
  | true =>
    obtain ⟨q, hq, hbq⟩ := List.any_eq_true.mp hany
    have : q.id = n := by simpa using hbq
    exact absurd this (Nat.ne_of_lt (h q hq))

theorem insertInvoiceRow_fresh (st : InvSt) (rec : InvoiceRec)
    (h : ∀ r ∈ st.rows, r.id < st.nextId) :
    insertInvoiceRow st rec =
      ⟨st.rows ++ [⟨st.nextId, rec.customer_id, rec.amount, rec.status, rec.date⟩],
        st.nextId + 1, st.skipped⟩ := by
  unfold insertInvoiceRow
  rw [any_id_eq_false st.rows st.nextId h]
  rfl

theorem mainRun_ok_state (f : Fixtures) (db d : DB)
    (h : (mainRun f db).result = .ok d) :
    ∃ rowsU, insertUsersAll f.users (usersRows db) = .ok rowsU ∧
      d.users = some rowsU ∧
      d.customers = some (insertCustomersAll f.customers (customerRows db)) ∧
      d.invoices = some (insertInvoicesAll f.invoices ⟨invoiceRows db, db.nextId, 0⟩).rows ∧
      d.nextId = (insertInvoicesAll f.invoices ⟨invoiceRows db, db.nextId, 0⟩).nextId ∧
      d.revenue = some (insertRevenuesAll f.revenue (revenueRows db)) := by
  rw [mainRun_result f db] at h
  cases hu : seedUsers f.users db with
  | error e => rw [hu] at h; exact absurd h (by simp)
  | ok u1 =>
    rw [hu] at h
    obtain ⟨rowsU, hins, hu1⟩ := seedUsers_ok_shape f.users db u1 hu
    have hd : d = seedRevenueD f.revenue (seedInvoicesD f.invoices (seedCustomersD f.customers u1)) := by
      injection h with h; exact h.symm
    obtain ⟨hIU, hIC, hII, hIR⟩ :
        u1.users = some rowsU ∧ u1.customers = db.customers ∧
        u1.invoices = db.invoices ∧ u1.revenue = db.revenue := by
      obtain ⟨g1, g2, g3, _⟩ := initUsers_fields db
      rw [hu1]
      exact ⟨rfl, g1, g2, g3⟩
    have hIN : u1.nextId = db.nextId := by
      obtain ⟨_, _, _, g4⟩ := initUsers_fields db
      rw [hu1]
      exact g4
    obtain ⟨hcU, hcI, hcR, hcN, hcC⟩ := seedCustomersD_fields f.customers u1
    obtain ⟨hiU, hiC, hiR, hiI, hiN⟩ :=
      seedInvoicesD_fields f.invoices (seedCustomersD f.customers u1)
    obtain ⟨hrU, hrC, hrI, hrN, hrR⟩ :=
      seedRevenueD_fields f.revenue (seedInvoicesD f.invoices (seedCustomersD f.customers u1))
    have hcrows : customerRows u1 = customerRows db := by
      simp [customerRows, hIC]
    have hirows : invoiceRows (seedCustomersD f.customers u1) = invoiceRows db := by
      simp [invoiceRows, hcI, hII]
    have hinext : (seedCustomersD f.customers u1).nextId = db.nextId := by
      rw [hcN, hIN]
    have hrrows : revenueRows (seedInvoicesD f.invoices (seedCustomersD f.customers u1)) =
        revenueRows db := by
      simp [revenueRows, hiR, hcR, hIR]
    refine ⟨rowsU, hins, ?_, ?_, ?_, ?_, ?_⟩
    · rw [hd, hrU, hiU, hcU, hIU]
    · rw [hd, hrC, hiC, hcC, hcrows]
    · rw [hd, hrI, hiI, hirows, hinext]
    · rw [hd, hrN, hiN, hirows, hinext]
    · rw [hd, hrR, hrrows]

/-- Claim C9: for each table, the schema initialization step (create the
extension if absent plus create the table if absent) can run any number
of times: every execution after the first successful one neither fails
(the functions are total) nor changes the schema or the data of an
existing table. -/
theorem schemaInit_idempotent (db : DB) :
    initUsers (initUsers db) = initUsers db ∧
    initCustomers (initCustomers db) = initCustomers db ∧
    initInvoices (initInvoices db) = initInvoices db ∧
    initRevenue (initRevenue db) = initRevenue db ∧
    (∀ rs, db.users = some rs → (initUsers db).users = some rs) ∧
    (∀ rs, db.customers = some rs → (initCustomers db).customers = some rs) ∧
    (∀ rs, db.invoices = some rs → (initInvoices db).invoices = some rs) ∧
    (∀ rs, db.revenue = some rs → (initRevenue db).revenue = some rs) := by
  refine ⟨?_, ?_, ?_, ?_, ?_, ?_, ?_, ?_⟩
  · cases h : db.users <;> simp [initUsers, h]
  · cases h : db.customers <;> simp [initCustomers, h]
  · cases h : db.invoices <;> simp [initInvoices, h]
  · cases h : db.revenue <;> simp [initRevenue, h]
  · intro rs h; simp [initUsers, h]
  · intro rs h; simp [initCustomers, h]
  · intro rs h; simp [initInvoices, h]
  · intro rs h; simp [initRevenue, h]

/-- Witness for C9 at a database in which every table exists. -/
theorem schemaInit_idempotent_witness :
    (initUsers dbAllTables).users = some rowsSample ∧
    (initRevenue dbAllTables).revenue = some rrowsSample :=
  ⟨(schemaInit_idempotent dbAllTables).2.2.2.2.1 rowsSample rfl,
   (schemaInit_idempotent dbAllTables).2.2.2.2.2.2.2 rrowsSample rfl⟩

/-- Claim C10: seeding the initially empty database twice with the same
single revenue fixture record (month Jan, revenue 100) leaves exactly one
row in the revenue table after both runs combined. -/
theorem revenue_seed_twice_one_row :
    Except.map (fun d => revenueRows d) (runTwice fOneRevenue emptyDB) =
      .ok [⟨"Jan", 100⟩] ∧
    Except.map (fun d => (revenueRows d).length) (runTwice fOneRevenue emptyDB) =
      .ok 1 := by
  constructor <;> decide

/-- Claim C3: the invoices INSERT supplies no id, so every id comes from
the server side generator; as long as every stored invoice id was drawn
from the generator (it is smaller than the generator state `nextId`), the
ON CONFLICT (id) DO NOTHING skip branch is never taken, the batch
succeeds, and the run appends exactly one new row per fixture record,
whatever rows already exist. -/
theorem seedInvoices_always_appends (recs : List InvoiceRec) (db : DB)
    (h : ∀ r ∈ invoiceRows db, r.id < db.nextId) :
    (insertInvoicesAll recs ⟨invoiceRows db, db.nextId, 0⟩).skipped = 0 ∧
    ∃ d, seedInvoices recs db = .ok d ∧
      (invoiceRows d).length = (invoiceRows db).length + recs.length := by
  obtain ⟨hs, hl, hn, hf⟩ :=
    insertInvoicesAll_fresh recs ⟨invoiceRows db, db.nextId, 0⟩ (by simpa using h)
  refine ⟨by simpa using hs, ⟨seedInvoicesD recs db, rfl, ?_⟩⟩
  obtain ⟨_, _, _, hinv, _⟩ := seedInvoicesD_fields recs db
  rw [invoiceRows, hinv]
  simpa using hl

/-- Witness for C3 at a database whose invoices table already holds one
generated row. -/
theorem seedInvoices_always_appends_witness :
    (insertInvoicesAll recsInv ⟨invoiceRows dbInvSample, dbInvSample.nextId, 0⟩).skipped = 0 ∧
    ∃ d, seedInvoices recsInv dbInvSample = .ok d ∧
      (invoiceRows d).length = (invoiceRows dbInvSample).length + recsInv.length :=
  seedInvoices_always_appends recsInv dbInvSample (by decide)

/-- Claim C8: an invoice fixture whose customer_id matches the id of no
stored customer row is still inserted successfully (the invoices schema
declares no foreign key, so nothing checks the reference). -/
theorem invoice_inserted_without_fk (rec : InvoiceRec) (db : DB)
    (hf : ∀ r ∈ invoiceRows db, r.id < db.nextId)
    (hfk : ∀ c ∈ customerRows db, c.id ≠ rec.customer_id) :
    ∃ d, seedInvoices [rec] db = .ok d ∧
      ∃ r ∈ invoiceRows d, r.customer_id = rec.customer_id ∧ r.amount = rec.amount ∧
        r.status = rec.status ∧ r.date = rec.date := by
  refine ⟨seedInvoicesD [rec] db, rfl, ?_⟩
  obtain ⟨_, _, _, hinv, _⟩ := seedInvoicesD_fields [rec] db
  have hone : insertInvoicesAll [rec] ⟨invoiceRows db, db.nextId, 0⟩ =
      ⟨invoiceRows db ++ [⟨db.nextId, rec.customer_id, rec.amount, rec.status, rec.date⟩],
        db.nextId + 1, 0⟩ := by
    simp only [insertInvoicesAll, List.foldl_cons, List.foldl_nil]
    exact insertInvoiceRow_fresh ⟨invoiceRows db, db.nextId, 0⟩ rec (by simpa using hf)
  rw [invoiceRows, hinv, hone]
  exact ⟨⟨db.nextId, rec.customer_id, rec.amount, rec.status, rec.date⟩,
    by simp, rfl, rfl, rfl, rfl⟩

/-- Witness for C8: an invoice referencing the unknown customer id
`ghost` is inserted into a database whose only customer has id `c1`. -/
theorem invoice_inserted_without_fk_witness :
    ∃ d, seedInvoices [recGhost] dbInvSample = .ok d ∧
      ∃ r ∈ invoiceRows d, r.customer_id = recGhost.customer_id ∧
        r.amount = recGhost.amount ∧ r.status = recGhost.status ∧ r.date = recGhost.date :=
  invoice_inserted_without_fk recGhost dbInvSample (by decide) (by decide)

/-- Claim C5: a conflict on the key named in the ON CONFLICT clause is
not an error (the record is skipped and the table is unchanged), both for
users (key id) and revenue (key month); any other database error raised
by an insert, such as the users.email uniqueness violation, fails the
whole batch: the seed function returns that error. -/
theorem conflict_skip_policy (rec : UserRec) (rows : List UserRow)
    (recs : List UserRec) (db : DB) (rv : RevenueRec) (rrows : List RevenueRec) :
    ((rows.any fun q => q.id == rec.id) = true → insertUserRow rows rec = .ok rows) ∧
    ((rows.any fun q => q.id == rec.id) = false →
      (rows.any fun q => q.email == rec.email) = true →
      insertUserRow rows rec = .error (.uniqueViolation "users_email_key")) ∧
    (∀ e, insertUsersAll recs (usersRows db) = .error e → seedUsers recs db = .error e) ∧
    ((rrows.any fun q => q.month == rv.month) = true → insertRevenueRow rrows rv = rrows) := by
  refine ⟨?_, ?_, ?_, ?_⟩
  · intro h; simp [insertUserRow, h]
  · intro h1 h2; simp [insertUserRow, h1, h2]
  · exact fun e => seedUsers_of_error recs db e
  · intro h; simp [insertRevenueRow, h]

/-- Witness for C5: an id conflict is skipped, an email clash errors, the
error fails the whole users phase, and a month conflict is skipped. -/
theorem conflict_skip_policy_witness :
    insertUserRow rowsSample recSameId = .ok rowsSample ∧
    insertUserRow rowsSample recEmailClash = .error (.uniqueViolation "users_email_key") ∧
    seedUsers fBadUsers emptyDB = .error (.uniqueViolation "users_email_key") ∧
    insertRevenueRow rrowsSample rvClash = rrowsSample :=
  ⟨(conflict_skip_policy recSameId rowsSample [] emptyDB rvClash rrowsSample).1 (by decide),
   (conflict_skip_policy recEmailClash rowsSample [] emptyDB rvClash rrowsSample).2.1
     (by decide) (by decide),
   (conflict_skip_policy recSameId rowsSample fBadUsers emptyDB rvClash rrowsSample).2.2.1
     (.uniqueViolation "users_email_key") (by decide),
   (conflict_skip_policy recSameId rowsSample [] emptyDB rvClash rrowsSample).2.2.2
     (by decide)⟩

/-- Claim C6: every row a successful run of `seedUsers` adds to the users
table stores the bcrypt hash of the fixture password at cost factor 10;
the stored value never equals the source plaintext and verifies against
it via the hash check operation, and no row stores the plaintext. -/
theorem seedUsers_password_hashed (recs : List UserRec) (db d : DB)
    (h : seedUsers recs db = .ok d) :
    ∀ q ∈ usersRows d, q ∈ usersRows db ∨
      ∃ rec ∈ recs, q = hashUserRow rec ∧ q.password = bcryptHash 10 rec.password ∧
        q.password ≠ rec.password ∧ bcryptCompare rec.password q.password = true := by
  obtain ⟨rows, hins, rfl⟩ := seedUsers_ok_shape recs db d h
  intro q hq
  have hq2 : q ∈ rows := by simpa [usersRows] using hq
  rcases insertUsersAll_new recs (usersRows db) rows hins q hq2 with hold | ⟨rec, hrec, rfl⟩
  · exact Or.inl hold
  · refine Or.inr ⟨rec, hrec, rfl, rfl, ?_, ?_⟩
    · simpa [hashUserRow] using bcryptHash_ne_plain 10 rec.password
    · simpa [hashUserRow] using bcryptCompare_hash rec.password

/-- Witness for C6 at the password scenario of the spec: one user with
plaintext `plain`, whose stored row is `rowPw`. -/
theorem seedUsers_password_hashed_witness :
    rowPw ∈ usersRows emptyDB ∨
      ∃ rec ∈ recsPw, rowPw = hashUserRow rec ∧ rowPw.password = bcryptHash 10 rec.password ∧
        rowPw.password ≠ rec.password ∧ bcryptCompare rec.password rowPw.password = true :=
  seedUsers_password_hashed recsPw emptyDB dPw (by decide) rowPw (by decide)

/-- Claim C7: the orchestrator runs the four loaders strictly
sequentially in the fixed order users, customers, invoices, revenue: the
event trace of every run is a prefix of the canonical trace, a successful
run produces the whole canonical trace, and a failed run stops at the
phase that failed (in the embedded error model only the users phase can
fail) with no later phase started. -/
theorem mainRun_sequential_phases (f : Fixtures) (db : DB) :
    (∃ t, (mainRun f db).trace ++ t = fullTrace) ∧
    (exOk (mainRun f db).result = true → (mainRun f db).trace = fullTrace) ∧
    (∀ e, (mainRun f db).result = .error e → (mainRun f db).trace = [.start .users]) := by
  cases hu : seedUsers f.users db with
  | error e =>
    refine ⟨⟨[.finish .users, .start .customers, .finish .customers,
      .start .invoices, .finish .invoices, .start .revenue, .finish .revenue], ?_⟩, ?_, ?_⟩ <;>
      simp [mainRun, hu, fullTrace, exOk]
  | ok d1 =>
    refine ⟨⟨[], ?_⟩, ?_, ?_⟩ <;>
      simp [mainRun, hu, seedCustomers, seedInvoices, seedRevenue, fullTrace, exOk]

/-- Witness for C7: a successful run emits the full canonical trace; a
run whose users phase fails stops right after starting that phase. -/
theorem mainRun_sequential_phases_witness :
    (mainRun fEmpty emptyDB).trace = fullTrace ∧
    (mainRun fBad emptyDB).trace = [.start .users] :=
  ⟨(mainRun_sequential_phases fEmpty emptyDB).2.1 (by decide),
   (mainRun_sequential_phases fBad emptyDB).2.2
     (.uniqueViolation "users_email_key") (by decide)⟩

/-- Counterexample to claim C1 as stated: in the run over the fixture set
`fBad` the users phase fails, the error is surfaced, and the connection
is never released (`client.end()` is unreachable because `main` has no
try/finally around the seeding phases), so the release count is 0, not
1. -/
theorem mainRun_release_cex :
    (mainRun fBad emptyDB).released = 0 ∧
    ¬ (mainRun fBad emptyDB).released = 1 ∧
    exOk (mainRun fBad emptyDB).result = false := by
  decide

/-- Claim C1 as amended: the connection is released exactly once if and
only if every phase succeeds; when a phase fails, the remaining phases
are skipped (the trace is strictly shorter than the canonical one), the
error is surfaced as the result, and the connection is not released. -/
theorem mainRun_release_characterization (f : Fixtures) (db : DB) :
    (mainRun f db).released = (if exOk (mainRun f db).result = true then 1 else 0) ∧
    (∀ e, (mainRun f db).result = .error e →
      (mainRun f db).released = 0 ∧ (mainRun f db).trace ≠ fullTrace) := by
  cases hu : seedUsers f.users db with
  | error e =>
    refine ⟨?_, ?_⟩ <;> simp [mainRun, hu, exOk, fullTrace]
  | ok d1 =>
    refine ⟨?_, ?_⟩ <;>
      simp [mainRun, hu, seedCustomers, seedInvoices, seedRevenue, exOk]

/-- Witness for C1 (amended) at the failing fixture set `fBad`. -/
theorem mainRun_release_characterization_witness :
    (mainRun fBad emptyDB).released = 0 ∧ (mainRun fBad emptyDB).trace ≠ fullTrace :=
  (mainRun_release_characterization fBad emptyDB).2
    (.uniqueViolation "users_email_key") (by decide)

/-- Counterexample to claim C4 as stated: with a fulfilled insert that
settles at time 5 and a rejected insert that settles at time 1,
`Promise.all` settles at time 1, before every submitted insert has
settled, so the loader does not wait for the remaining inserts. -/
theorem promiseAll_cex :
    ¬ (∀ t ∈ tasksMixed, t.time ≤ (promiseAll tasksMixed).time) := by
  decide

/-- Claim C4 as amended: when every submitted insert fulfills, the batch
reports completion only after every insert has settled; when some insert
rejects, the earliest rejection is surfaced at its own settle time (which
bounds every other rejection time) without waiting for the remaining
inserts. -/
theorem promiseAll_settle_spec {ε α : Type} (ts : List (PTask ε α)) :
    ((∀ t ∈ ts, taskOk t = true) → ∀ t ∈ ts, t.time ≤ (promiseAll ts).time) ∧
    (∀ u, minTimeFail ts = some u →
      taskOk u = false ∧ (promiseAll ts).time = u.time ∧
      (∀ t ∈ ts, taskOk t = false → u.time ≤ t.time) ∧
      ∀ e, u.result = .error e → (promiseAll ts).result = .error e) := by
  constructor
  · intro hok t ht
    have h0 := mtf_all_ok ts hok
    simp only [promiseAll, h0]
    exact le_foldl_max_mem _ 0 t.time (List.mem_map_of_mem _ ht)
  · intro u hu
    obtain ⟨hok, hall⟩ := mtf_some ts u hu
    refine ⟨hok, by simp [promiseAll, hu], hall, ?_⟩
    intro e he
    simp [promiseAll, hu, he]

/-- Witness for C4 (amended): an all fulfilled batch settles no earlier
than each task; a batch with a rejection settles at the first rejection
and surfaces its reason. -/
theorem promiseAll_settle_spec_witness :
    (∀ t ∈ tasksOk2, t.time ≤ (promiseAll tasksOk2).time) ∧
    (promiseAll tasksMixed).time = 1 ∧
    (promiseAll tasksMixed).result = .error "boom" :=
  ⟨(promiseAll_settle_spec tasksOk2).1 (by decide),
   ((promiseAll_settle_spec tasksMixed).2 ⟨1, .error "boom"⟩ (by decide)).2.1,
   ((promiseAll_settle_spec tasksMixed).2 ⟨1, .error "boom"⟩ (by decide)).2.2.2 "boom" rfl⟩

/-- Counterexample to claim C2 as stated: seeding the empty database
twice with one invoice fixture leaves 2 rows in the invoices table, while
a single run leaves 1 row, so the row counts of the four tables are not
all identical (the invoices INSERT never supplies an id, so re-runs
append). -/
theorem seedTwice_cex :
    ¬ (Except.map (fun d => (invoiceRows d).length) (runTwice fOneInvoice emptyDB) =
       Except.map (fun d => (invoiceRows d).length) (mainRun fOneInvoice emptyDB).result) := by
  decide

/-- Claim C2 as amended: running the seed routine twice against the same
initially empty database yields the same row counts as one run for the
users, customers and revenue tables, but the invoices table receives one
fresh row per fixture record on each run: it holds exactly twice as many
rows after the second run. -/
theorem seedTwice_counts (f : Fixtures) (d1 d2 : DB)
    (h1 : (mainRun f emptyDB).result = .ok d1)
    (h2 : (mainRun f d1).result = .ok d2) :
    (usersRows d2).length = (usersRows d1).length ∧
    (customerRows d2).length = (customerRows d1).length ∧
    (revenueRows d2).length = (revenueRows d1).length ∧
    (invoiceRows d1).length = f.invoices.length ∧
    (invoiceRows d2).length = 2 * f.invoices.length := by
  obtain ⟨rowsU, hins1, hU1, hC1, hI1, hN1, hR1⟩ := mainRun_ok_state f emptyDB d1 h1
  obtain ⟨rowsU2, hins2, hU2, hC2, hI2, hN2, hR2⟩ := mainRun_ok_state f d1 d2 h2
  obtain ⟨hsk1, hlen1, hnid1, hfresh1⟩ :=
    insertInvoicesAll_fresh f.invoices ⟨invoiceRows emptyDB, emptyDB.nextId, 0⟩
      (by intro r hr; simp [invoiceRows, emptyDB] at hr)
  have husers1 : usersRows d1 = rowsU := by simp [usersRows, hU1]
  have hnoopU : insertUsersAll f.users (usersRows d1) = .ok (usersRows d1) := by
    rw [husers1]
    exact insertUsersAll_noop f.users rowsU
      fun rec hrec => insertUsersAll_covers f.users _ rowsU hins1 rec hrec
  have hrowsU2 : rowsU2 = usersRows d1 := by
    have heq := hnoopU.symm.trans hins2
    injection heq with heq
    exact heq.symm
  have husers2 : usersRows d2 = usersRows d1 := by
    simp [usersRows, hU2, hrowsU2]
  have hcust1 : customerRows d1 = insertCustomersAll f.customers (customerRows emptyDB) := by
    simp [customerRows, hC1]
  have hnoopC : insertCustomersAll f.customers (customerRows d1) = customerRows d1 :=
    insertCustomersAll_noop f.customers (customerRows d1) (by
      intro rec hrec
      rw [hcust1]
      exact insertCustomersAll_covers f.customers (customerRows emptyDB) rec hrec)
  have hcust2 : customerRows d2 = customerRows d1 := by
    unfold customerRows
    rw [hC2, Option.getD_some, hnoopC]
    rfl
  have hrev1 : revenueRows d1 = insertRevenuesAll f.revenue (revenueRows emptyDB) := by
    simp [revenueRows, hR1]
  have hnoopR : insertRevenuesAll f.revenue (revenueRows d1) = revenueRows d1 :=
    insertRevenuesAll_noop f.revenue (revenueRows d1) (by
      intro rec hrec
      rw [hrev1]
      exact insertRevenuesAll_covers f.revenue (revenueRows emptyDB) rec hrec)
  have hrev2 : revenueRows d2 = revenueRows d1 := by
    unfold revenueRows
    rw [hR2, Option.getD_some, hnoopR]
    rfl
  have hinv1 : invoiceRows d1 =
      (insertInvoicesAll f.invoices ⟨invoiceRows emptyDB, emptyDB.nextId, 0⟩).rows := by
    simp [invoiceRows, hI1]
  have hred0 : (⟨invoiceRows emptyDB, emptyDB.nextId, 0⟩ : InvSt).rows = invoiceRows emptyDB :=
    rfl
  have hlen1A : (invoiceRows d1).length = f.invoices.length := by
    rw [hinv1, hlen1, hred0]
    simp [invoiceRows, emptyDB]
  obtain ⟨hsk2, hlen2, hnid2, hfresh2⟩ :=
    insertInvoicesAll_fresh f.invoices ⟨invoiceRows d1, d1.nextId, 0⟩
      (by
        intro r hr
        have hr2 : r ∈
            (insertInvoicesAll f.invoices ⟨invoiceRows emptyDB, emptyDB.nextId, 0⟩).rows := by
          simpa [hinv1] using hr
        have hlt := hfresh1 r hr2
        simpa [hN1] using hlt)
  have hinv2 : invoiceRows d2 =
      (insertInvoicesAll f.invoices ⟨invoiceRows d1, d1.nextId, 0⟩).rows := by
    simp [invoiceRows, hI2]
  have hred1 : (⟨invoiceRows d1, d1.nextId, 0⟩ : InvSt).rows = invoiceRows d1 := rfl
  refine ⟨by rw [husers2], by rw [hcust2], by rw [hrev2], hlen1A, ?_⟩
  rw [hinv2, hlen2, hred1, hlen1A]
  omega

/-- Witness for C2 (amended) at one record in every table: the users,
customers and revenue counts are unchanged by the second run while the
invoices count doubles. -/
theorem seedTwice_counts_witness :
    (usersRows dOneEachTwice).length = (usersRows dOneEach).length ∧
    (customerRows dOneEachTwice).length = (customerRows dOneEach).length ∧
    (revenueRows dOneEachTwice).length = (revenueRows dOneEach).length ∧
    (invoiceRows dOneEach).length = fOneEach.invoices.length ∧
    (invoiceRows dOneEachTwice).length = 2 * fOneEach.invoices.length :=
  seedTwice_counts fOneEach dOneEach dOneEachTwice (by decide) (by decide)
